import Mathlib

/-!
Verification of the Termo game-logic engine (`src/App.tsx`, `src/types.ts`)
against its natural-language specification.

The TypeScript source is shallowly embedded below: words and solutions are
`List Char`, the in-progress guess buffer is a `List (Option Char)` (a `none`
slot is the empty string slot of the source), JS numbers holding scores are
`Int`, array indices are `Nat`.  Imperative `forEach` loops that mutate arrays
in place become `List.foldl` with `List.set`; the source's unbounded
`while` loops become fuel-indexed recursions (returning `none` when the fuel
runs out before the loop does, so that termination questions stay visible).
Where the source indexes an array (`xs[i]`), the embedding uses `getD` with a
default that is never reached on states whose lists have the shapes the
program maintains.  React state setters inside one event handler are applied
in program order with last-write-wins value semantics, which is how React
batches them; functional updates compose.
-/

set_option linter.deprecated false

namespace Termo

/-- Per-letter status of a tile, from `types.ts` (`CharStatus`). -/
inductive CharStatus
  | correct
  | present
  | absent
  | initial
deriving DecidableEq, Repr

/-- Session status, from `types.ts` (`GameStatus`). -/
inductive GameStatus
  | playing
  | won
  | lost
deriving DecidableEq, Repr

/-- Modelled from the spec: `constants.ts` is not among the sources.  The spec
fixes the word length `L` at 5 (its §8 test vectors use `L=5`) and `App.tsx`'s
own comments describe the filters as keeping "Only 5 letter words". -/
def WORD_LENGTH : Nat := 5

/-- First index at or after `n` whose element satisfies `p`
(JS `Array.prototype.findIndex`, as an `Option` instead of `-1`). -/
def findIdxFrom (p : α → Bool) : List α → Nat → Option Nat
  | [], _ => none
  | a :: l, n => if p a then some n else findIdxFrom p l (n + 1)

/-- `splitSolution.findIndex((sLetter, index) => sLetter === letter && !solutionCharsTaken[index])`
from `getGuessStatuses` in `App.tsx`; `taken` always has the solution's length there. -/
def findUntaken (solution : List Char) (taken : List Bool) (letter : Char) : Option Nat :=
  findIdxFrom (fun q => q.1 == letter && !q.2) (solution.zip taken) 0

/-- Pass 1 body of `getGuessStatuses` (`App.tsx`): an exact positional match
becomes `correct` and consumes that solution position. -/
def pass1Step (solution : List Char) (acc : List CharStatus × List Bool) (p : Nat × Char) :
    List CharStatus × List Bool :=
  if solution.get? p.1 = some p.2 then (acc.1.set p.1 .correct, acc.2.set p.1 true) else acc

/-- Pass 1 of `getGuessStatuses`: fold of `pass1Step` over the enumerated guess,
starting from all-`absent` statuses and an all-`false` consumed mask. -/
def pass1 (guess solution : List Char) : List CharStatus × List Bool :=
  guess.enum.foldl (pass1Step solution)
    (List.replicate WORD_LENGTH .absent, solution.map fun _ => false)

/-- Pass 2 body of `getGuessStatuses`: a not-yet-`correct` guess letter takes the
lowest-index unconsumed matching solution position if one exists. -/
def pass2Step (solution : List Char) (acc : List CharStatus × List Bool) (p : Nat × Char) :
    List CharStatus × List Bool :=
  if acc.1.get? p.1 = some .correct then acc
  else
    match findUntaken solution acc.2 p.2 with
    | some j => (acc.1.set p.1 .present, acc.2.set j true)
    | none => acc

/-- `getGuessStatuses` from `App.tsx`: pass 1 then pass 2, returning the statuses. -/
def getGuessStatuses (guess solution : List Char) : List CharStatus :=
  (guess.enum.foldl (pass2Step solution) (pass1 guess solution)).1

/-- Follows the spec's words (§4.2 pass 2): walk the guess left to right, each
letter paired with its pass-1 verdict; a `correct` letter keeps its status,
otherwise the letter is `present` and consumes the lowest-index unconsumed
matching solution position if one exists, else it is `absent`. -/
def specPass2 (solution : List Char) : List (Char × Bool) → List Bool → List CharStatus
  | [], _ => []
  | (c, f) :: rest, taken =>
    if f then .correct :: specPass2 solution rest taken
    else
      match findUntaken solution taken c with
      | some j => .present :: specPass2 solution rest (taken.set j true)
      | none => .absent :: specPass2 solution rest taken

/-- The consumed-set left behind by `specPass2`; needed to relate the source's
state-threading fold to the spec's recursion. -/
def specPass2Taken (solution : List Char) : List (Char × Bool) → List Bool → List Bool
  | [], taken => taken
  | (c, f) :: rest, taken =>
    if f then specPass2Taken solution rest taken
    else
      match findUntaken solution taken c with
      | some j => specPass2Taken solution rest (taken.set j true)
      | none => specPass2Taken solution rest taken

/-- The spec's two-pass reference scorer (§4.2): pass 1 marks every exact
positional match `correct` and consumes that solution position; pass 2 is
`specPass2` over the remaining letters. -/
def scoreSpec (guess solution : List Char) : List CharStatus :=
  specPass2 solution
    (List.zipWith (fun gc sc => (gc, gc == sc)) guess solution)
    (List.zipWith (fun gc sc => gc == sc) guess solution)

/-- Outcome of a hint request (`handleHint` in `App.tsx`); the source signals
these as early returns plus toast/shake, which are transient UI feedback. -/
inductive HintResult
  | notPlaying
  | insufficientScore
  | noUnsolved
  | noSlot
  | revealed (slot : Nat) (letter : Char)
deriving DecidableEq, Repr

/-- Outcome of an ENTER submission (`onKeyDown` in `App.tsx`). -/
inductive SubmitResult
  | rejectedIncomplete
  | rejectedUnknown
  | accepted (turnPoints : Int)
deriving DecidableEq, Repr

/-- Logical keys delivered to `onKeyDown` (the window listener and the on-screen
keyboard only ever deliver these). -/
inductive Key
  | enter
  | backspace
  | arrowLeft
  | arrowRight
  | letter (c : Char)
deriving DecidableEq, Repr

/-- The React state of `App` that carries gameplay semantics.  Transient UI
state (`shakeRow`, `toast`, `isDictionaryLoaded`) is deliberately outside: the
spec's §7 treats it as a feedback signal, and it is returned separately as
`HintResult`/`SubmitResult` by the transition functions. -/
structure GameState where
  level : Nat
  score : Int
  hintCost : Int
  solutions : List (List Char)
  guesses : List (List Char)
  currentGuess : List (Option Char)
  activeTileIndex : Nat
  gameStatus : GameStatus
  solvedIndices : List Bool
  revealedHints : List (Nat × Char)
  hintedSolutionIndex : Option Nat
  validGuessesSet : List (List Char)
deriving DecidableEq, Repr

/-- `numWords = level + 1` (`App.tsx`). -/
def numWords (s : GameState) : Nat := s.level + 1

/-- `maxChallenges = 6 + level` (`App.tsx`). -/
def maxChallenges (s : GameState) : Nat := 6 + s.level

/-- `revealedHints` is a JS object keyed by slot index; this is its lookup.
JS objects cannot hold a key twice, so the association lists the embedding
builds always have nodup keys. -/
def hintLookup (i : Nat) : List (Nat × Char) → Option Char
  | [] => none
  | (k, c) :: r => if k = i then some c else hintLookup i r

/-- `currentGuess.join("")`: the buffer's letters in order, empty slots skipped. -/
def joinedGuess (s : GameState) : List Char := s.currentGuess.filterMap id

/-- Body of the solved-boards `forEach` in the ENTER branch of `onKeyDown`:
an unsolved board whose solution equals the submitted word becomes solved and
adds `pts` to the turn total. -/
def solveStep (w : List Char) (pts : Int) (acc : List Bool × Int) (p : Nat × List Char) :
    List Bool × Int :=
  if acc.1.get? p.1 ≠ some true ∧ w = p.2 then (acc.1.set p.1 true, acc.2 + pts) else acc

/-- `Math.max(10, 100 - attemptsTaken * 15)` with `attemptsTaken = guesses.length`
(the number of previously accepted submissions). -/
def submitPoints (s : GameState) : Int := max 10 (100 - (s.guesses.length : Int) * 15)

/-- The solved-mask/turn-points fold of the ENTER branch over the enumerated solutions. -/
def submitSolve (s : GameState) : List Bool × Int :=
  s.solutions.enum.foldl (solveStep (joinedGuess s) (submitPoints s)) (s.solvedIndices, 0)

/-- `hintedSolutionIndex !== null && newSolvedIndices[hintedSolutionIndex]`
(JS truthiness: an out-of-range read is `undefined`, hence falsy). -/
def hintedNowSolved (s : GameState) : Bool :=
  match s.hintedSolutionIndex with
  | some h => (submitSolve s).1.getD h false
  | none => false

/-- Rebuild of the next guess buffer from the persisted hints:
`Object.entries(revealedHints)` written over an all-empty buffer.  The object's
keys are distinct, so the write order cannot matter. -/
def rebuildFromHints (hints : List (Nat × Char)) : List (Option Char) :=
  hints.foldl (fun buf p => buf.set p.1 (some p.2)) (List.replicate WORD_LENGTH none)

/-- The ENTER branch of `onKeyDown` (`App.tsx`): reject an incomplete buffer,
reject a word outside the validation vocabulary, otherwise append the word,
solve matching boards and score them, apply hint persistence, reset the cursor
and compute the next status. -/
def submitGuess (s : GameState) : GameState × SubmitResult :=
  if (joinedGuess s).length ≠ WORD_LENGTH ∨ none ∈ s.currentGuess then
    (s, .rejectedIncomplete)
  else if joinedGuess s ∉ s.validGuessesSet then
    (s, .rejectedUnknown)
  else
    ({ s with
        guesses := s.guesses ++ [joinedGuess s],
        solvedIndices := (submitSolve s).1,
        score := s.score + (submitSolve s).2,
        revealedHints := if hintedNowSolved s then [] else s.revealedHints,
        hintedSolutionIndex := if hintedNowSolved s then none else s.hintedSolutionIndex,
        currentGuess :=
          if hintedNowSolved s then List.replicate WORD_LENGTH none
          else rebuildFromHints s.revealedHints,
        activeTileIndex := 0,
        gameStatus :=
          if (submitSolve s).1.all (fun b => b) then .won
          else if s.guesses.length + 1 ≥ 6 + s.level then .lost
          else .playing },
      .accepted (submitSolve s).2)

/-- `onKeyDown` for every key (`App.tsx`): guarded by `gameStatus !== 'playing'`;
backspace clears in place or moves back, arrows clamp the cursor, a letter
writes at the cursor and advances it unless already at the last slot. -/
def onKeyDown (s : GameState) (k : Key) : GameState :=
  if s.gameStatus ≠ .playing then s
  else
    match k with
    | .backspace =>
      if s.currentGuess.get? s.activeTileIndex ≠ some none then
        { s with currentGuess := s.currentGuess.set s.activeTileIndex none }
      else
        { s with currentGuess := s.currentGuess.set (s.activeTileIndex - 1) none,
                 activeTileIndex := s.activeTileIndex - 1 }
    | .arrowLeft => { s with activeTileIndex := s.activeTileIndex - 1 }
    | .arrowRight => { s with activeTileIndex := min (WORD_LENGTH - 1) (s.activeTileIndex + 1) }
    | .enter => (submitGuess s).1
    | .letter c =>
      if 'A' ≤ c ∧ c ≤ 'Z' then
        { s with currentGuess := s.currentGuess.set s.activeTileIndex (some c),
                 activeTileIndex :=
                   if s.activeTileIndex < WORD_LENGTH - 1 then s.activeTileIndex + 1
                   else s.activeTileIndex }
      else s

/-- `solvedIndices.findIndex(solved => !solved)` in `handleHint`. -/
def firstUnsolvedIndex (s : GameState) : Option Nat :=
  findIdxFrom (fun b => !b) s.solvedIndices 0

/-- The retarget test of `handleHint`:
`activeHintIndex === null || solvedIndices[activeHintIndex] || activeHintIndex !== currentUnsolvedIndex`. -/
def hintRetarget (s : GameState) (u : Nat) : Bool :=
  match s.hintedSolutionIndex with
  | none => true
  | some h => s.solvedIndices.getD h false || h != u

/-- The slot candidates of `handleHint`: indices whose buffer slot is empty and
not already a key of `revealedHints` (the render-scope `revealedHints`, i.e.
the pre-call one: the retarget's `setRevealedHints({})` has not landed yet). -/
def availableHintSlots (s : GameState) : List Nat :=
  ((s.currentGuess.enum.filter fun p => p.2.isNone && (hintLookup p.1 s.revealedHints).isNone).map
    Prod.fst)

/-- The slot `handleHint` reveals, with `r` standing for the uniform draw:
`availableIndices[Math.floor(Math.random() * availableIndices.length)]`. -/
def hintSlotPick (s : GameState) (r : Nat) : Nat :=
  (availableHintSlots s).getD (r % (availableHintSlots s).length) 0

/-- `activeHintIndex` after the retarget block of `handleHint`. -/
def hintTargetIndex (s : GameState) (u : Nat) : Nat :=
  if hintRetarget s u then u else s.hintedSolutionIndex.getD u

/-- The revealed letter: `solutions[activeHintIndex][randomIndex]`. -/
def hintLetter (s : GameState) (u : Nat) (r : Nat) : Char :=
  (s.solutions.getD (hintTargetIndex s u) []).getD (hintSlotPick s r) ' '

/-- The cursor-advance `while` loop at the end of `handleHint`, fuel-indexed;
`WORD_LENGTH` fuel strictly dominates the loop's `nextIndex < WORD_LENGTH - 1`
bound.  Note the loop reads `currentGuess`, the render-scope buffer from before
the reveal was written — exactly as the source does. -/
def advanceLoop (buf : List (Option Char)) : Nat → Nat → Nat
  | 0, idx => idx
  | fuel + 1, idx =>
    if idx < WORD_LENGTH - 1 ∧ buf.get? idx ≠ some none then advanceLoop buf fuel (idx + 1)
    else idx

/-- The state a hint request leaves behind when it is rejected for lack of an
empty, unrevealed slot: the retarget block's `setHintedSolutionIndex` /
`setRevealedHints({})` calls have already been queued when the early return
fires, so they land even though the hint itself is refused. -/
def hintNoSlotState (s : GameState) (u : Nat) : GameState :=
  { s with
      hintedSolutionIndex := if hintRetarget s u then some u else s.hintedSolutionIndex,
      revealedHints := if hintRetarget s u then [] else s.revealedHints }

/-- The state after a successful hint: reveal recorded (spread over the
pre-call `revealedHints`, which silently undoes the retarget's clearing, as in
the source), letter written into the buffer, score charged, cost raised, and
the cursor-advance loop run over the pre-reveal buffer. -/
def hintSuccessState (s : GameState) (u : Nat) (r : Nat) : GameState :=
  { s with
      hintedSolutionIndex := if hintRetarget s u then some u else s.hintedSolutionIndex,
      revealedHints := s.revealedHints ++ [(hintSlotPick s r, hintLetter s u r)],
      currentGuess := s.currentGuess.set (hintSlotPick s r) (some (hintLetter s u r)),
      score := s.score - s.hintCost,
      hintCost := s.hintCost + 5,
      activeTileIndex :=
        if hintSlotPick s r = s.activeTileIndex then
          advanceLoop s.currentGuess WORD_LENGTH s.activeTileIndex
        else s.activeTileIndex }

/-- `handleHint` from `App.tsx`, with `r` the uniform random draw.  The queued
`setState` calls of one invocation are applied last-write-wins, which is how
React batches them. -/
def handleHint (s : GameState) (r : Nat) : GameState × HintResult :=
  if s.gameStatus ≠ .playing then (s, .notPlaying)
  else if s.score < s.hintCost then (s, .insufficientScore)
  else
    match firstUnsolvedIndex s with
    | none => (s, .noUnsolved)
    | some u =>
      if availableHintSlots s = [] then (hintNoSlotState s u, .noSlot)
      else (hintSuccessState s u r, .revealed (hintSlotPick s r) (hintLetter s u r))

/-- The per-key write of `getKeyStatuses` (`App.tsx`): read the letter's current
map entry, apply the correct > present > absent priority chain, write back. -/
def updateKeyStatus (cur : Option CharStatus) (n : CharStatus) : Option CharStatus :=
  if cur = some .correct then cur
  else if n = .correct then some .correct
  else if cur = some .present then cur
  else if n = .present then some .present
  else if n = .absent then some .absent
  else cur

/-- One guess-letter step of `getKeyStatuses`: `statuses[i]` looked up, then the
priority write at that letter's key. -/
def keyUpdate (statuses : List CharStatus) (m : Char → Option CharStatus) (p : Nat × Char) :
    Char → Option CharStatus :=
  match statuses.get? p.1 with
  | some st => fun c => if c = p.2 then updateKeyStatus (m p.2) st else m c
  | none => m

/-- `getKeyStatuses` from `App.tsx`: for every guess and every solution, skipping
solved boards, fold every guess letter's Scorer status into the letter map. -/
def getKeyStatuses (guesses solutions : List (List Char)) (solved : List Bool) :
    Char → Option CharStatus :=
  guesses.foldl
    (fun m guess =>
      solutions.enum.foldl
        (fun m p =>
          if solved.get? p.1 = some true then m
          else guess.enum.foldl (keyUpdate (getGuessStatuses guess p.2)) m)
        m)
    (fun _ => none)

/-- Priority rank of the spec's §4.3 order `correct > present > absent`;
`initial` never arises from the Scorer and ranks below everything that does. -/
def statusRank : CharStatus → Nat
  | .correct => 3
  | .present => 2
  | .absent => 1
  | .initial => 0

/-- Rank of a letter-map entry; an absent entry ranks lowest. -/
def optRank : Option CharStatus → Nat
  | none => 0
  | some st => statusRank st

/-- Follows the spec's words: fold into "a running best-per-letter map with
priority correct > present > absent" — keep the entry unless the new status
ranks strictly higher. -/
def statusMax (cur : Option CharStatus) (n : CharStatus) : Option CharStatus :=
  if optRank cur < statusRank n then some n else cur

/-- Follows the spec's words (§4.3): for every guess, against every currently
unsolved solution, compute the Scorer statuses and fold each letter into the
best-per-letter map under `statusMax`. -/
def specAggregate (guesses solutions : List (List Char)) (solved : List Bool) :
    Char → Option CharStatus :=
  guesses.foldl
    (fun m guess =>
      (solutions.enum.filter fun p => !(solved.getD p.1 false)).foldl
        (fun m p =>
          (guess.zip (getGuessStatuses guess p.2)).foldl
            (fun m q => fun c => if c = q.1 then statusMax (m q.1) q.2 else m c) m)
        m)
    (fun _ => none)

/-- The solution-eligibility filter of `initGame`:
`w.length === WORD_LENGTH && !w.includes(" ")`. -/
def eligible (w : List Char) : Bool := w.length == WORD_LENGTH && !(w.contains ' ')

/-- The solution-selection `while` loop of `initGame`, fuel-indexed: each
iteration draws `validWords[draws step % validWords.length]` and appends it if
not already chosen; `none` means the fuel ran out with the loop still running
(the source has no such bound — its loop simply does not terminate then). -/
def selectLoop (validWords : List (List Char)) (n : Nat) (draws : Nat → Nat) :
    Nat → Nat → List (List Char) → Option (List (List Char))
  | 0, _, acc => if acc.length < n then none else some acc
  | fuel + 1, step, acc =>
    if acc.length < n then
      selectLoop validWords n draws fuel (step + 1)
        (if acc.contains (validWords.getD (draws step % validWords.length) []) then acc
         else acc ++ [validWords.getD (draws step % validWords.length) []])
    else some acc

/-- Solution selection of `initGame`: filter the vocabulary to eligible words,
then run the drawing loop for `numWords` distinct words. -/
def initSolutions (vocabulary : List (List Char)) (n : Nat) (draws : Nat → Nat)
    (fuel : Nat) : Option (List (List Char)) :=
  selectLoop (vocabulary.filter eligible) n draws fuel 0 []

/-- The state `initGame` establishes (new solutions, cleared masks/guesses/buffer/
cursor/hints, `hintCost` back to 5, status `playing`), together with the
level-0 score-reset effect when `resetScore` is set. -/
def applyInit (s : GameState) (newLevel : Nat) (sols : List (List Char))
    (resetScore : Bool) : GameState :=
  { s with
      level := newLevel,
      solutions := sols,
      solvedIndices := List.replicate (newLevel + 1) false,
      guesses := [],
      currentGuess := List.replicate WORD_LENGTH none,
      activeTileIndex := 0,
      gameStatus := .playing,
      hintCost := 5,
      revealedHints := [],
      hintedSolutionIndex := none,
      score := if resetScore then 0 else s.score }

/-- The first state of a session: level 0, score 0, one board, produced by the
mount-time `initGame`. -/
def initialState (sols vg : List (List Char)) : GameState :=
  { level := 0, score := 0, hintCost := 5, solutions := sols, guesses := [],
    currentGuess := List.replicate WORD_LENGTH none, activeTileIndex := 0,
    gameStatus := .playing, solvedIndices := List.replicate 1 false,
    revealedHints := [], hintedSolutionIndex := none, validGuessesSet := vg }

/-- One UI event applied to the session state: a key, a tile click (sets the
cursor; only reachable while playing), a hint request, the asynchronous
dictionary merge (append-only on the validation vocabulary), and the three
level-control buttons, each of which reruns `initGame` with freshly selected
solutions. -/
inductive Step : GameState → GameState → Prop
  | key (s : GameState) (k : Key) : Step s (onKeyDown s k)
  | tileClick (s : GameState) (i : Nat) (h : s.gameStatus = .playing) :
      Step s { s with activeTileIndex := i }
  | hint (s : GameState) (r : Nat) : Step s (handleHint s r).1
  | dictMerge (s : GameState) (ws : List (List Char)) :
      Step s { s with validGuessesSet := s.validGuessesSet ++ ws }
  | advanceLevel (s : GameState) (vocab : List (List Char)) (draws : Nat → Nat)
      (fuel : Nat) (sols : List (List Char)) (hw : s.gameStatus = .won)
      (hsel : initSolutions vocab (s.level + 2) draws fuel = some sols) :
      Step s (applyInit s (s.level + 1) sols false)
  | restartLevel (s : GameState) (vocab : List (List Char)) (draws : Nat → Nat)
      (fuel : Nat) (sols : List (List Char)) (hl : s.gameStatus = .lost)
      (hsel : initSolutions vocab (s.level + 1) draws fuel = some sols) :
      Step s (applyInit s s.level sols false)
  | resetToZero (s : GameState) (vocab : List (List Char)) (draws : Nat → Nat)
      (fuel : Nat) (sols : List (List Char)) (hl : s.gameStatus = .lost)
      (hnz : s.level ≠ 0)
      (hsel : initSolutions vocab 1 draws fuel = some sols) :
      Step s (applyInit s 0 sols true)

/-- The states the app can be in: a freshly initialized level-0 session,
closed under `Step`. -/
inductive Reachable : GameState → Prop
  | init (vocab : List (List Char)) (draws : Nat → Nat) (fuel : Nat)
      (sols vg : List (List Char))
      (hsel : initSolutions vocab 1 draws fuel = some sols) :
      Reachable (initialState sols vg)
  | step {s t : GameState} : Reachable s → Step s t → Reachable t

/-- The §3 status invariants: `Won` exactly when every board is solved, and
`Lost` only with an unsolved board and an exhausted attempt budget. -/
def Inv (s : GameState) : Prop :=
  (s.gameStatus = .won ↔ s.solvedIndices.all (fun b => b) = true) ∧
  (s.gameStatus = .lost →
    s.solvedIndices.all (fun b => b) = false ∧ s.guesses.length ≥ 6 + s.level)

/-- A five-letter word for concrete instances. -/
def demoWord : List Char := "TERMO".toList

/-- A second, distinct five-letter word for concrete instances. -/
def demoWord2 : List Char := "SABOR".toList

/-- Concrete state for the C2 witness: fresh one-board level, buffer holding the
solution, solution in the validation vocabulary. -/
def scoreWitnessState : GameState :=
  { level := 0, score := 0, hintCost := 5, solutions := [demoWord], guesses := [],
    currentGuess := demoWord.map some, activeTileIndex := 0,
    gameStatus := .playing, solvedIndices := [false],
    revealedHints := [], hintedSolutionIndex := none, validGuessesSet := [demoWord] }

/-- Concrete state for the C5 witness: a hint at slot 1 on the (unsolved) target
board, buffer holding a complete wrong word from the vocabulary. -/
def hintPersistWitnessState : GameState :=
  { level := 0, score := 100, hintCost := 10, solutions := [demoWord],
    guesses := [], currentGuess := demoWord2.map some, activeTileIndex := 0,
    gameStatus := .playing, solvedIndices := [false],
    revealedHints := [(1, 'E')], hintedSolutionIndex := some 0,
    validGuessesSet := [demoWord2] }

/-- Concrete state for the C6 counterexample: playing, affordable hint, no hint
target yet, but the buffer is completely full, so the hint request is rejected
for lack of a slot — after the retarget writes have been queued. -/
def noSlotCexState : GameState :=
  { level := 0, score := 100, hintCost := 5, solutions := [demoWord], guesses := [],
    currentGuess := demoWord2.map some, activeTileIndex := 0,
    gameStatus := .playing, solvedIndices := [false],
    revealedHints := [], hintedSolutionIndex := none, validGuessesSet := [] }

/-- Concrete state for the C6 witness: an empty buffer makes ENTER rejected as
incomplete. -/
def incompleteWitnessState : GameState :=
  { level := 0, score := 0, hintCost := 5, solutions := [demoWord], guesses := [],
    currentGuess := List.replicate WORD_LENGTH none, activeTileIndex := 0,
    gameStatus := .playing, solvedIndices := [false],
    revealedHints := [], hintedSolutionIndex := none, validGuessesSet := [demoWord] }

/-- Concrete state for the C7 witness: `score = hintCost = 5`, empty buffer, so
the first hint succeeds, deducts 5 and raises the cost to 10. -/
def hintEconomyWitnessState : GameState :=
  { level := 0, score := 5, hintCost := 5, solutions := [demoWord], guesses := [],
    currentGuess := List.replicate WORD_LENGTH none, activeTileIndex := 0,
    gameStatus := .playing, solvedIndices := [false],
    revealedHints := [], hintedSolutionIndex := none, validGuessesSet := [] }

/-- Concrete state for C8: cursor at 0, buffer empty, hint affordable; the draw
`r = 0` reveals slot 0, the slot under the cursor. -/
def cursorBugState : GameState :=
  { level := 0, score := 100, hintCost := 5, solutions := [demoWord], guesses := [],
    currentGuess := List.replicate WORD_LENGTH none, activeTileIndex := 0,
    gameStatus := .playing, solvedIndices := [false],
    revealedHints := [], hintedSolutionIndex := none, validGuessesSet := [] }

/-- Concrete state for the C10 witness: board 0 already solved by the only
guess so far; the same word is about to be submitted again. -/
def duplicateWitnessState : GameState :=
  { level := 1, score := 100, hintCost := 5, solutions := [demoWord, demoWord2],
    guesses := [demoWord], currentGuess := demoWord.map some, activeTileIndex := 0,
    gameStatus := .playing, solvedIndices := [true, false],
    revealedHints := [], hintedSolutionIndex := none, validGuessesSet := [demoWord] }

/-! ### List helper lemmas -/

theorem get?_append_length (l : List α) (a : α) (r : List α) :
    (l ++ a :: r).get? l.length = some a := by
  induction l with
  | nil => rfl
  | cons x xs ih => simpa using ih

theorem set_append_length (l : List α) (a b : α) (r : List α) :
    (l ++ a :: r).set l.length b = l ++ b :: r := by
  induction l with
  | nil => rfl
  | cons x xs ih =>
    show x :: ((xs ++ a :: r).set xs.length b) = x :: (xs ++ b :: r)
    rw [ih]

theorem append_cons_eq (l : List α) (a : α) (r : List α) :
    l ++ a :: r = (l ++ [a]) ++ r := by simp

theorem get?_set_ne (l : List α) (i j : Nat) (a : α) (h : i ≠ j) :
    (l.set i a).get? j = l.get? j := by
  induction l generalizing i j with
  | nil => rfl
  | cons x xs ih =>
    cases i with
    | zero =>
      cases j with
      | zero => exact absurd rfl h
      | succ j => rfl
    | succ i =>
      cases j with
      | zero => rfl
      | succ j => exact ih i j (fun hh => h (by omega))

theorem get?_set_self (l : List α) (i : Nat) (a b : α) (h : l.get? i = some a) :
    (l.set i b).get? i = some b := by
  induction l generalizing i with
  | nil => simp [List.get?] at h
  | cons x xs ih =>
    cases i with
    | zero => rfl
    | succ i => exact ih i h

theorem get?_eq_head?_drop (l : List α) (k : Nat) : l.get? k = (l.drop k).head? := by
  induction l generalizing k with
  | nil => cases k <;> rfl
  | cons x xs ih =>
    cases k with
    | zero => rfl
    | succ k => exact ih k

theorem drop_succ_of_drop_cons (l : List α) (k : Nat) (a : α) (t : List α)
    (h : l.drop k = a :: t) : l.drop (k + 1) = t := by
  have h2 : List.drop 1 (List.drop k l) = List.drop (k + 1) l := List.drop_drop 1 k l
  rw [h] at h2
  exact h2.symm

theorem map_const_eq_replicate (l : List α) (b : β) :
    l.map (fun _ => b) = List.replicate l.length b := by
  induction l with
  | nil => rfl
  | cons x xs ih => simp [List.replicate_succ, ih]

theorem zip_zipWith_pair (f : α → β → γ) (l : List α) (l' : List β) :
    l.zip (List.zipWith f l l') = List.zipWith (fun a b => (a, f a b)) l l' := by
  induction l generalizing l' with
  | nil => rfl
  | cons x xs ih =>
    cases l' with
    | nil => rfl
    | cons y ys =>
      show (x, f x y) :: xs.zip (List.zipWith f xs ys) = _
      rw [ih ys]
      rfl

theorem map_zipWith_own (g : γ → δ) (f : α → β → γ) (l : List α) (l' : List β) :
    (List.zipWith f l l').map g = List.zipWith (fun a b => g (f a b)) l l' := by
  induction l generalizing l' with
  | nil => rfl
  | cons x xs ih =>
    cases l' with
    | nil => rfl
    | cons y ys =>
      show g (f x y) :: (List.zipWith f xs ys).map g = _
      rw [ih ys]
      rfl

theorem get?_zipWith_some (f : α → β → γ) (l : List α) (l' : List β) (i : Nat) (a : α) (b : β)
    (ha : l.get? i = some a) (hb : l'.get? i = some b) :
    (List.zipWith f l l').get? i = some (f a b) := by
  induction l generalizing l' i with
  | nil => simp [List.get?] at ha
  | cons x xs ih =>
    cases l' with
    | nil => simp [List.get?] at hb
    | cons y ys =>
      cases i with
      | zero =>
        simp [List.get?] at ha hb
        rw [ha, hb]
        rfl
      | succ i => exact ih ys i ha hb

/-! ### The Scorer: source fold equals the spec's two-pass recursion (C1) -/

theorem set_append_of_length (l : List α) (a b : α) (r : List α) (k : Nat)
    (h : l.length = k) : (l ++ a :: r).set k b = l ++ b :: r := by
  subst h
  exact set_append_length l a b r

theorem get?_append_of_length (l : List α) (a : α) (r : List α) (k : Nat)
    (h : l.length = k) : (l ++ a :: r).get? k = some a := by
  subst h
  exact get?_append_length l a r

/-! ### The Scorer: source fold equals the spec's two-pass recursion (C1) -/

theorem pass1Step_pos (solution : List Char) (st : List CharStatus) (tk : List Bool)
    (k : Nat) (c : Char) (h : solution.get? k = some c) :
    pass1Step solution (st, tk) (k, c) = (st.set k .correct, tk.set k true) := by
  have he : pass1Step solution (st, tk) (k, c)
      = if solution.get? k = some c then (st.set k .correct, tk.set k true) else (st, tk) := rfl
  rw [he, if_pos h]

theorem pass1Step_neg (solution : List Char) (st : List CharStatus) (tk : List Bool)
    (k : Nat) (c : Char) (h : ¬(solution.get? k = some c)) :
    pass1Step solution (st, tk) (k, c) = (st, tk) := by
  have he : pass1Step solution (st, tk) (k, c)
      = if solution.get? k = some c then (st.set k .correct, tk.set k true) else (st, tk) := rfl
  rw [he, if_neg h]

theorem pass2Step_skip (solution : List Char) (st : List CharStatus) (tk : List Bool)
    (k : Nat) (c : Char) (h : st.get? k = some .correct) :
    pass2Step solution (st, tk) (k, c) = (st, tk) := by
  have he : pass2Step solution (st, tk) (k, c)
      = if st.get? k = some .correct then (st, tk)
        else
          match findUntaken solution tk c with
          | some j => (st.set k .present, tk.set j true)
          | none => (st, tk) := rfl
  rw [he, if_pos h]

theorem pass2Step_found (solution : List Char) (st : List CharStatus) (tk : List Bool)
    (k : Nat) (c : Char) (j : Nat) (h : ¬(st.get? k = some .correct))
    (hf : findUntaken solution tk c = some j) :
    pass2Step solution (st, tk) (k, c) = (st.set k .present, tk.set j true) := by
  have he : pass2Step solution (st, tk) (k, c)
      = if st.get? k = some .correct then (st, tk)
        else
          match findUntaken solution tk c with
          | some j => (st.set k .present, tk.set j true)
          | none => (st, tk) := rfl
  rw [he, if_neg h, hf]

theorem pass2Step_none (solution : List Char) (st : List CharStatus) (tk : List Bool)
    (k : Nat) (c : Char) (h : ¬(st.get? k = some .correct))
    (hf : findUntaken solution tk c = none) :
    pass2Step solution (st, tk) (k, c) = (st, tk) := by
  have he : pass2Step solution (st, tk) (k, c)
      = if st.get? k = some .correct then (st, tk)
        else
          match findUntaken solution tk c with
          | some j => (st.set k .present, tk.set j true)
          | none => (st, tk) := rfl
  rw [he, if_neg h, hf]

theorem pass1_fold (solution : List Char) (g : List Char) :
    ∀ (sSuf : List Char) (k : Nat) (preS : List CharStatus) (preT : List Bool),
      preS.length = k → preT.length = k → g.length = sSuf.length →
      (∀ m, solution.get? (k + m) = sSuf.get? m) →
      (List.enumFrom k g).foldl (pass1Step solution)
          (preS ++ List.replicate g.length .absent, preT ++ List.replicate g.length false)
        = (preS ++ List.zipWith (fun gc sc => if gc == sc then CharStatus.correct else .absent)
              g sSuf,
           preT ++ List.zipWith (fun gc sc => gc == sc) g sSuf) := by
  induction g with
  | nil =>
    intro sSuf k preS preT hS hT hlen hsol
    cases sSuf with
    | nil => simp [List.enumFrom]
    | cons _ _ => simp at hlen
  | cons c g ih =>
    intro sSuf k preS preT hS hT hlen hsol
    cases sSuf with
    | nil => simp at hlen
    | cons s0 sr =>
      have h0 : solution.get? k = some s0 := by simpa using hsol 0
      have hlen2 : g.length = sr.length := by simpa using hlen
      have hsol2 : ∀ m, solution.get? (k + 1 + m) = sr.get? m := by
        intro m
        have h1 := hsol (m + 1)
        have h2 : k + (m + 1) = k + 1 + m := by omega
        rw [h2] at h1
        simpa using h1
      have hunfold : (List.enumFrom k (c :: g)).foldl (pass1Step solution)
          (preS ++ List.replicate (c :: g).length .absent,
           preT ++ List.replicate (c :: g).length false)
          = (List.enumFrom (k + 1) g).foldl (pass1Step solution)
              (pass1Step solution
                (preS ++ CharStatus.absent :: List.replicate g.length .absent,
                 preT ++ false :: List.replicate g.length false) (k, c)) := rfl
      rw [hunfold]
      by_cases hc : s0 = c
      · have hc2 : c = s0 := hc.symm
        rw [pass1Step_pos solution _ _ k c (by rw [h0, hc])]
        rw [set_append_of_length _ _ _ _ k hS, set_append_of_length _ _ _ _ k hT]
        rw [append_cons_eq preS, append_cons_eq preT]
        rw [ih sr (k + 1) (preS ++ [CharStatus.correct]) (preT ++ [true])
            (by simp [hS]) (by simp [hT]) hlen2 hsol2]
        simp [List.zipWith_cons_cons, List.append_assoc, hc2]
      · have hc2 : ¬(c = s0) := fun hh => hc hh.symm
        have hcond : ¬(solution.get? k = some c) := by
          rw [h0]
          intro hcontra
          exact hc (Option.some.inj hcontra)
        rw [pass1Step_neg solution _ _ k c hcond]
        rw [append_cons_eq preS, append_cons_eq preT]
        rw [ih sr (k + 1) (preS ++ [CharStatus.absent]) (preT ++ [false])
            (by simp [hS]) (by simp [hT]) hlen2 hsol2]
        simp [List.zipWith_cons_cons, List.append_assoc, hc2]

theorem pass2_fold (solution : List Char) (g : List Char) :
    ∀ (flags : List Bool) (k : Nat) (pre : List CharStatus) (tk : List Bool),
      pre.length = k → flags.length = g.length →
      (List.enumFrom k g).foldl (pass2Step solution)
          (pre ++ flags.map (fun f => if f then CharStatus.correct else .absent), tk)
        = (pre ++ specPass2 solution (g.zip flags) tk,
           specPass2Taken solution (g.zip flags) tk) := by
  induction g with
  | nil =>
    intro flags k pre tk hP hF
    cases flags with
    | nil => simp [List.enumFrom, specPass2, specPass2Taken]
    | cons _ _ => simp at hF
  | cons c g ih =>
    intro flags k pre tk hP hF
    cases flags with
    | nil => simp at hF
    | cons f fr =>
      have hF2 : fr.length = g.length := by simpa using hF
      have hunfold : (List.enumFrom k (c :: g)).foldl (pass2Step solution)
          (pre ++ ((f :: fr).map fun f => if f then CharStatus.correct else .absent), tk)
          = (List.enumFrom (k + 1) g).foldl (pass2Step solution)
              (pass2Step solution
                (pre ++ (if f then CharStatus.correct else CharStatus.absent)
                  :: (fr.map fun f => if f then CharStatus.correct else .absent), tk) (k, c)) := rfl
      rw [hunfold]
      cases f with
      | true =>
        have hget : (pre ++ CharStatus.correct
            :: (fr.map fun f => if f then CharStatus.correct else CharStatus.absent)).get? k
            = some CharStatus.correct := get?_append_of_length _ _ _ k hP
        rw [show (if true then CharStatus.correct else CharStatus.absent) = CharStatus.correct
          from rfl]
        rw [pass2Step_skip solution _ _ k c hget]
        rw [append_cons_eq pre]
        rw [ih fr (k + 1) (pre ++ [CharStatus.correct]) tk (by simp [hP]) hF2]
        simp [specPass2, specPass2Taken, List.append_assoc, List.zip]
      | false =>
        have hget : (pre ++ CharStatus.absent
            :: (fr.map fun f => if f then CharStatus.correct else CharStatus.absent)).get? k
            = some CharStatus.absent := get?_append_of_length _ _ _ k hP
        have hne : ¬((pre ++ CharStatus.absent
            :: (fr.map fun f => if f then CharStatus.correct else CharStatus.absent)).get? k
            = some CharStatus.correct) := by
          rw [hget]
          intro hcontra
          exact CharStatus.noConfusion (Option.some.inj hcontra)
        rw [show (if false then CharStatus.correct else CharStatus.absent) = CharStatus.absent
          from rfl]
        cases hfind : findUntaken solution tk c with
        | some j =>
          rw [pass2Step_found solution _ _ k c j hne hfind]
          rw [set_append_of_length _ _ _ _ k hP]
          rw [append_cons_eq pre]
          rw [ih fr (k + 1) (pre ++ [CharStatus.present]) (tk.set j true) (by simp [hP]) hF2]
          simp [specPass2, specPass2Taken, hfind, List.append_assoc, List.zip]
        | none =>
          rw [pass2Step_none solution _ _ k c hne hfind]
          rw [append_cons_eq pre]
          rw [ih fr (k + 1) (pre ++ [CharStatus.absent]) tk (by simp [hP]) hF2]
          simp [specPass2, specPass2Taken, hfind, List.append_assoc, List.zip]

theorem pass1_eq (guess solution : List Char)
    (hg : guess.length = WORD_LENGTH) (hs : solution.length = WORD_LENGTH) :
    pass1 guess solution
      = (List.zipWith (fun gc sc => if gc == sc then CharStatus.correct else .absent)
            guess solution,
         List.zipWith (fun gc sc => gc == sc) guess solution) := by
  have hlen : guess.length = solution.length := by rw [hg, hs]
  have hmap : solution.map (fun _ => false) = List.replicate guess.length false := by
    rw [map_const_eq_replicate, hlen]
  have hrep : List.replicate WORD_LENGTH CharStatus.absent
      = List.replicate guess.length .absent := by rw [hg]
  have hmain := pass1_fold solution guess solution 0 [] [] rfl rfl hlen (fun m => by simp)
  simpa [pass1, List.enum, hmap, hrep] using hmain

/-- C1.  The Scorer (`getGuessStatuses` in `App.tsx`) computes exactly the
status sequence of the spec two-pass duplicate-letter-aware reference
algorithm (`scoreSpec`): pass 1 marks exact positional matches correct and
consumes them; pass 2 walks the remaining guess letters left to right, marking
`present` and consuming the lowest-index unconsumed matching solution
position when one exists, else `absent`. -/
theorem scorer_matches_spec_two_pass (guess solution : List Char)
    (hg : guess.length = WORD_LENGTH) (hs : solution.length = WORD_LENGTH) :
    getGuessStatuses guess solution = scoreSpec guess solution := by
  have hflags : (List.zipWith (fun gc sc => gc == sc) guess solution).length
      = guess.length := by
    rw [List.length_zipWith, hg, hs]
    omega
  have hmap : List.zipWith (fun gc sc => if gc == sc then CharStatus.correct else .absent)
        guess solution
      = (List.zipWith (fun gc sc => gc == sc) guess solution).map
          (fun f => if f then CharStatus.correct else .absent) := by
    rw [map_zipWith_own]
  unfold getGuessStatuses scoreSpec
  rw [pass1_eq guess solution hg hs, hmap]
  have hmain := pass2_fold solution guess (List.zipWith (fun gc sc => gc == sc) guess solution)
    0 [] (List.zipWith (fun gc sc => gc == sc) guess solution) rfl hflags
  rw [show guess.enum = List.enumFrom 0 guess from rfl]
  simp only [List.nil_append] at hmain
  rw [hmain, zip_zipWith_pair]

/-- Witness for C1 at the spec §8 duplicate-letter test vector:
guess `SPEED` against solution `ERASE`. -/
theorem scorer_matches_spec_two_pass_witness :
    "SPEED".toList.length = WORD_LENGTH ∧ "ERASE".toList.length = WORD_LENGTH ∧
    getGuessStatuses "SPEED".toList "ERASE".toList = scoreSpec "SPEED".toList "ERASE".toList ∧
    getGuessStatuses "SPEED".toList "ERASE".toList
      = [.present, .absent, .present, .present, .absent] :=
  ⟨by decide, by decide,
   scorer_matches_spec_two_pass _ _ (by decide) (by decide), by decide⟩

/-! ### Submission: solving fold, scoring (C2, C10) -/

theorem solveStep_pos (w : List Char) (pts : Int) (mask : List Bool) (acc2 : Int)
    (k : Nat) (sol : List Char) (h1 : ¬(mask.get? k = some true)) (h2 : w = sol) :
    solveStep w pts (mask, acc2) (k, sol) = (mask.set k true, acc2 + pts) := by
  have he : solveStep w pts (mask, acc2) (k, sol)
      = if mask.get? k ≠ some true ∧ w = sol then (mask.set k true, acc2 + pts)
        else (mask, acc2) := rfl
  rw [he, if_pos ⟨h1, h2⟩]

theorem solveStep_neg (w : List Char) (pts : Int) (mask : List Bool) (acc2 : Int)
    (k : Nat) (sol : List Char) (h : ¬(¬(mask.get? k = some true) ∧ w = sol)) :
    solveStep w pts (mask, acc2) (k, sol) = (mask, acc2) := by
  have he : solveStep w pts (mask, acc2) (k, sol)
      = if mask.get? k ≠ some true ∧ w = sol then (mask.set k true, acc2 + pts)
        else (mask, acc2) := rfl
  rw [he, if_neg h]

theorem solveFold_spec (w : List Char) (pts : Int) (sols : List (List Char)) :
    ∀ (suf pre : List Bool) (k : Nat) (acc2 : Int),
      pre.length = k → suf.length = sols.length →
      (List.enumFrom k sols).foldl (solveStep w pts) (pre ++ suf, acc2)
        = (pre ++ List.zipWith (fun sv sol => sv || (w == sol)) suf sols,
           acc2 + pts * (((suf.zip sols).filter fun p => !p.1 && (w == p.2)).length : Int)) := by
  induction sols with
  | nil =>
    intro suf pre k acc2 hP hL
    cases suf with
    | nil => simp [List.enumFrom]
    | cons _ _ => simp at hL
  | cons sol sols ih =>
    intro suf pre k acc2 hP hL
    cases suf with
    | nil => simp at hL
    | cons sv suf =>
      have hL2 : suf.length = sols.length := by simpa using hL
      have hunfold : (List.enumFrom k (sol :: sols)).foldl (solveStep w pts)
          (pre ++ sv :: suf, acc2)
          = (List.enumFrom (k + 1) sols).foldl (solveStep w pts)
              (solveStep w pts (pre ++ sv :: suf, acc2) (k, sol)) := rfl
      rw [hunfold]
      have hget : (pre ++ sv :: suf).get? k = some sv := get?_append_of_length _ _ _ k hP
      cases sv with
      | true =>
        have hcond : ¬(¬((pre ++ true :: suf).get? k = some true) ∧ w = sol) := by
          rw [hget]
          intro hcontra
          exact hcontra.1 rfl
        rw [solveStep_neg w pts _ acc2 k sol hcond]
        rw [append_cons_eq pre]
        rw [ih suf (pre ++ [true]) (k + 1) acc2 (by simp [hP]) hL2]
        simp [List.zipWith_cons_cons, List.zip_cons_cons, List.filter_cons, List.append_assoc]
      | false =>
        by_cases hw : w = sol
        · have hcond1 : ¬((pre ++ false :: suf).get? k = some true) := by
            rw [hget]
            intro hcontra
            exact Bool.noConfusion (Option.some.inj hcontra)
          have hbeq : (w == sol) = true := by simp [hw]
          rw [solveStep_pos w pts _ acc2 k sol hcond1 hw]
          rw [set_append_of_length _ _ _ _ k hP]
          rw [append_cons_eq pre]
          rw [ih suf (pre ++ [true]) (k + 1) (acc2 + pts) (by simp [hP]) hL2]
          simp only [List.zipWith_cons_cons, List.zip_cons_cons, List.filter_cons, hbeq,
            Bool.not_false, Bool.true_and, List.length_cons, List.append_assoc,
            List.singleton_append, Prod.mk.injEq, true_and]
          constructor
          · rfl
          · simp only [if_true]
            rw [List.length_cons]
            push_cast
            ring
        · have hcond : ¬(¬((pre ++ false :: suf).get? k = some true) ∧ w = sol) :=
            fun hcontra => hw hcontra.2
          have hbeq : (w == sol) = false := by simp [hw]
          rw [solveStep_neg w pts _ acc2 k sol hcond]
          rw [append_cons_eq pre]
          rw [ih suf (pre ++ [false]) (k + 1) acc2 (by simp [hP]) hL2]
          simp [List.zipWith_cons_cons, List.zip_cons_cons, List.filter_cons, hbeq,
            List.append_assoc]

theorem solveFold_mono (w : List Char) (pts : Int) (l : List (Nat × List Char)) :
    ∀ (mask : List Bool) (acc2 : Int) (i : Nat), mask.get? i = some true →
      ((l.foldl (solveStep w pts) (mask, acc2)).1).get? i = some true := by
  induction l with
  | nil =>
    intro mask acc2 i h
    exact h
  | cons p l ih =>
    obtain ⟨k0, sol0⟩ := p
    intro mask acc2 i h
    show ((l.foldl (solveStep w pts) (solveStep w pts (mask, acc2) (k0, sol0))).1).get? i
        = some true
    by_cases hc : ¬(mask.get? k0 = some true) ∧ w = sol0
    · rw [solveStep_pos w pts mask acc2 k0 sol0 hc.1 hc.2]
      apply ih
      by_cases hip : k0 = i
      · subst hip
        exact get?_set_self mask k0 true true h
      · rw [get?_set_ne mask k0 i true hip]
        exact h
    · rw [solveStep_neg w pts mask acc2 k0 sol0 hc]
      exact ih mask acc2 i h

theorem submit_cases (s : GameState) (tp : Int)
    (h : (submitGuess s).2 = SubmitResult.accepted tp) :
    ¬((joinedGuess s).length ≠ WORD_LENGTH ∨ none ∈ s.currentGuess)
      ∧ joinedGuess s ∈ s.validGuessesSet ∧ tp = (submitSolve s).2 := by
  by_cases h1 : (joinedGuess s).length ≠ WORD_LENGTH ∨ none ∈ s.currentGuess
  · exfalso
    have hr : (submitGuess s).2 = SubmitResult.rejectedIncomplete := by
      unfold submitGuess
      rw [if_pos h1]
    rw [hr] at h
    exact SubmitResult.noConfusion h
  · by_cases h2 : joinedGuess s ∉ s.validGuessesSet
    · exfalso
      have hr : (submitGuess s).2 = SubmitResult.rejectedUnknown := by
        unfold submitGuess
        rw [if_neg h1, if_pos h2]
      rw [hr] at h
      exact SubmitResult.noConfusion h
    · refine ⟨h1, not_not.mp h2, ?_⟩
      have hr : (submitGuess s).2 = SubmitResult.accepted (submitSolve s).2 := by
        unfold submitGuess
        rw [if_neg h1, if_neg h2]
      rw [hr] at h
      exact (SubmitResult.accepted.inj h).symm

theorem submit_state_of_accepted (s : GameState) (tp : Int)
    (h : (submitGuess s).2 = SubmitResult.accepted tp) :
    (submitGuess s).1 = { s with
        guesses := s.guesses ++ [joinedGuess s],
        solvedIndices := (submitSolve s).1,
        score := s.score + (submitSolve s).2,
        revealedHints := if hintedNowSolved s then [] else s.revealedHints,
        hintedSolutionIndex := if hintedNowSolved s then none else s.hintedSolutionIndex,
        currentGuess :=
          if hintedNowSolved s then List.replicate WORD_LENGTH none
          else rebuildFromHints s.revealedHints,
        activeTileIndex := 0,
        gameStatus :=
          if (submitSolve s).1.all (fun b => b) then .won
          else if s.guesses.length + 1 ≥ 6 + s.level then .lost
          else .playing } := by
  obtain ⟨h1, h2, _⟩ := submit_cases s tp h
  unfold submitGuess
  rw [if_neg h1, if_neg (not_not_intro h2)]

theorem submit_rejectedIncomplete_state (s : GameState)
    (h : (submitGuess s).2 = SubmitResult.rejectedIncomplete) : (submitGuess s).1 = s := by
  by_cases h1 : (joinedGuess s).length ≠ WORD_LENGTH ∨ none ∈ s.currentGuess
  · unfold submitGuess
    rw [if_pos h1]
  · by_cases h2 : joinedGuess s ∉ s.validGuessesSet
    · unfold submitGuess
      rw [if_neg h1, if_pos h2]
    · exfalso
      have hr : (submitGuess s).2 = SubmitResult.accepted (submitSolve s).2 := by
        unfold submitGuess
        rw [if_neg h1, if_neg h2]
      rw [hr] at h
      exact SubmitResult.noConfusion h

theorem submit_rejectedUnknown_state (s : GameState)
    (h : (submitGuess s).2 = SubmitResult.rejectedUnknown) : (submitGuess s).1 = s := by
  by_cases h1 : (joinedGuess s).length ≠ WORD_LENGTH ∨ none ∈ s.currentGuess
  · unfold submitGuess
    rw [if_pos h1]
  · by_cases h2 : joinedGuess s ∉ s.validGuessesSet
    · unfold submitGuess
      rw [if_neg h1, if_pos h2]
    · exfalso
      have hr : (submitGuess s).2 = SubmitResult.accepted (submitSolve s).2 := by
        unfold submitGuess
        rw [if_neg h1, if_neg h2]
      rw [hr] at h
      exact SubmitResult.noConfusion h

theorem submitSolve_eq (s : GameState)
    (hlen : s.solvedIndices.length = s.solutions.length) :
    submitSolve s
      = (List.zipWith (fun sv sol => sv || (joinedGuess s == sol))
            s.solvedIndices s.solutions,
         submitPoints s * (((s.solvedIndices.zip s.solutions).filter
            fun p => !p.1 && (joinedGuess s == p.2)).length : Int)) := by
  unfold submitSolve
  have hmain := solveFold_spec (joinedGuess s) (submitPoints s) s.solutions
    s.solvedIndices [] 0 0 rfl hlen
  rw [show s.solutions.enum = List.enumFrom 0 s.solutions from rfl]
  simp only [List.nil_append] at hmain
  rw [hmain]
  rw [zero_add]

/-- C2.  For every accepted submission, every unsolved board whose solution is
the submitted word becomes solved, and the score grows by exactly
`max(10, 100 - 15 * attemptsBefore)` points per such board, with
`attemptsBefore` the number of previously accepted submissions (so a
first-attempt solve awards 100 points and `attemptsBefore = 6` awards 10). -/
theorem submit_scoring_correct (s : GameState) (tp : Int)
    (hacc : (submitGuess s).2 = SubmitResult.accepted tp)
    (hlen : s.solvedIndices.length = s.solutions.length) :
    (submitGuess s).1.solvedIndices
        = List.zipWith (fun sv sol => sv || (joinedGuess s == sol))
            s.solvedIndices s.solutions
      ∧ (submitGuess s).1.score
          = s.score + submitPoints s
              * (((s.solvedIndices.zip s.solutions).filter
                    fun p => !p.1 && (joinedGuess s == p.2)).length : Int)
      ∧ (∀ i, s.solvedIndices.get? i = some false →
          s.solutions.get? i = some (joinedGuess s) →
          (submitGuess s).1.solvedIndices.get? i = some true)
      ∧ (s.guesses.length = 0 → submitPoints s = 100)
      ∧ (s.guesses.length = 6 → submitPoints s = 10) := by
  have hstate := submit_state_of_accepted s tp hacc
  have hsolve := submitSolve_eq s hlen
  refine ⟨?_, ?_, ?_, ?_, ?_⟩
  · rw [hstate]
    show (submitSolve s).1 = _
    rw [hsolve]
  · rw [hstate]
    show s.score + (submitSolve s).2 = _
    rw [hsolve]
  · intro i hFalse hSol
    rw [hstate]
    show (submitSolve s).1.get? i = some true
    rw [hsolve]
    have := get?_zipWith_some (fun sv sol => sv || (joinedGuess s == sol))
      s.solvedIndices s.solutions i false (joinedGuess s) hFalse hSol
    simpa using this
  · intro h0
    unfold submitPoints
    rw [h0]
    norm_num
  · intro h6
    unfold submitPoints
    rw [h6]
    norm_num

/-- C2 witness: a fresh level, first submission solves the single board and
awards 100 points. -/
theorem submit_scoring_correct_witness :
    (submitGuess scoreWitnessState).1.solvedIndices
        = List.zipWith (fun sv sol => sv || (joinedGuess scoreWitnessState == sol))
            scoreWitnessState.solvedIndices scoreWitnessState.solutions
      ∧ (submitGuess scoreWitnessState).1.score
          = scoreWitnessState.score + submitPoints scoreWitnessState
              * (((scoreWitnessState.solvedIndices.zip scoreWitnessState.solutions).filter
                    fun p => !p.1 && (joinedGuess scoreWitnessState == p.2)).length : Int)
      ∧ (∀ i, scoreWitnessState.solvedIndices.get? i = some false →
          scoreWitnessState.solutions.get? i = some (joinedGuess scoreWitnessState) →
          (submitGuess scoreWitnessState).1.solvedIndices.get? i = some true)
      ∧ (scoreWitnessState.guesses.length = 0 → submitPoints scoreWitnessState = 100)
      ∧ (scoreWitnessState.guesses.length = 6 → submitPoints scoreWitnessState = 10) :=
  submit_scoring_correct scoreWitnessState 100 (by decide) (by decide)

/-- C10.  A complete word in the validation vocabulary is always accepted —
also when it repeats an earlier guess or equals the solution of an
already-solved board: it is appended to the guesses again, no solved-mask
entry is ever reset, and points only come from boards that were unsolved. -/
theorem duplicate_submission_accepted (s : GameState)
    (hlen : s.solvedIndices.length = s.solutions.length)
    (hcomp : ¬((joinedGuess s).length ≠ WORD_LENGTH ∨ none ∈ s.currentGuess))
    (hvocab : joinedGuess s ∈ s.validGuessesSet) :
    (submitGuess s).2 = SubmitResult.accepted (submitSolve s).2
      ∧ (submitGuess s).1.guesses = s.guesses ++ [joinedGuess s]
      ∧ (∀ i, s.solvedIndices.get? i = some true →
          (submitGuess s).1.solvedIndices.get? i = some true)
      ∧ (submitGuess s).1.score
          = s.score + submitPoints s
              * (((s.solvedIndices.zip s.solutions).filter
                    fun p => !p.1 && (joinedGuess s == p.2)).length : Int) := by
  have hres : (submitGuess s).2 = SubmitResult.accepted (submitSolve s).2 := by
    unfold submitGuess
    rw [if_neg hcomp, if_neg (not_not_intro hvocab)]
  have hstate := submit_state_of_accepted s (submitSolve s).2 hres
  refine ⟨hres, ?_, ?_, ?_⟩
  · rw [hstate]
  · intro i hTrue
    rw [hstate]
    show (submitSolve s).1.get? i = some true
    unfold submitSolve
    exact solveFold_mono (joinedGuess s) (submitPoints s) s.solutions.enum
      s.solvedIndices 0 i hTrue
  · rw [hstate]
    show s.score + (submitSolve s).2 = _
    rw [submitSolve_eq s hlen]

/-- C10 witness: resubmitting the word that already solved board 0 is accepted,
appended again, resets nothing, and awards nothing. -/
theorem duplicate_submission_accepted_witness :
    (submitGuess duplicateWitnessState).2
        = SubmitResult.accepted (submitSolve duplicateWitnessState).2
      ∧ (submitGuess duplicateWitnessState).1.guesses
          = duplicateWitnessState.guesses ++ [joinedGuess duplicateWitnessState]
      ∧ (∀ i, duplicateWitnessState.solvedIndices.get? i = some true →
          (submitGuess duplicateWitnessState).1.solvedIndices.get? i = some true)
      ∧ (submitGuess duplicateWitnessState).1.score
          = duplicateWitnessState.score + submitPoints duplicateWitnessState
              * (((duplicateWitnessState.solvedIndices.zip
                    duplicateWitnessState.solutions).filter
                    fun p => !p.1 && (joinedGuess duplicateWitnessState == p.2)).length : Int) :=
  duplicate_submission_accepted duplicateWitnessState (by decide) (by decide) (by decide)

/-! ### Hint persistence across submissions (C5) -/

theorem get?_replicate_of_lt (a : α) (n i : Nat) (h : i < n) :
    (List.replicate n a).get? i = some a := by
  induction n generalizing i with
  | zero => omega
  | succ n ih =>
    cases i with
    | zero => rfl
    | succ i => exact ih i (by omega)

theorem get?_set_self_of_lt (l : List α) (i : Nat) (b : α) (h : i < l.length) :
    (l.set i b).get? i = some b := by
  induction l generalizing i with
  | nil => simp at h
  | cons x xs ih =>
    cases i with
    | zero => rfl
    | succ i => exact ih i (by simpa using h)

theorem hintLookup_eq_none (i : Nat) (hints : List (Nat × Char))
    (h : i ∉ hints.map Prod.fst) : hintLookup i hints = none := by
  induction hints with
  | nil => rfl
  | cons p r ih =>
    obtain ⟨k, c⟩ := p
    rw [show hintLookup i ((k, c) :: r) = if k = i then some c else hintLookup i r from rfl]
    have hk : ¬(k = i) := by
      intro hh
      exact h (by simp [hh])
    rw [if_neg hk]
    exact ih (fun hm => h (by simp [hm]))

theorem rebuild_fold_get? (hints : List (Nat × Char)) :
    ∀ (buf : List (Option Char)) (i : Nat), (hints.map Prod.fst).Nodup → i < buf.length →
      (hints.foldl (fun b p => b.set p.1 (some p.2)) buf).get? i
        = match hintLookup i hints with
          | some c => some (some c)
          | none => buf.get? i := by
  induction hints with
  | nil =>
    intro buf i hnd hlt
    rfl
  | cons p r ih =>
    obtain ⟨k, c⟩ := p
    intro buf i hnd hlt
    have hnd2 : (r.map Prod.fst).Nodup := (List.nodup_cons.mp hnd).2
    have hknotin : k ∉ r.map Prod.fst := (List.nodup_cons.mp hnd).1
    show (r.foldl (fun b p => b.set p.1 (some p.2)) (buf.set k (some c))).get? i = _
    by_cases hk : k = i
    · subst hk
      rw [ih (buf.set k (some c)) k hnd2 (by simpa using hlt)]
      rw [hintLookup_eq_none k r hknotin]
      have hR : hintLookup k ((k, c) :: r) = some c := by
        rw [show hintLookup k ((k, c) :: r) = if k = k then some c else hintLookup k r from rfl,
          if_pos rfl]
      rw [hR]
      rw [get?_set_self_of_lt buf k (some c) hlt]
    · rw [ih (buf.set k (some c)) i hnd2 (by simpa using hlt)]
      have hL : hintLookup i ((k, c) :: r) = hintLookup i r := by
        rw [show hintLookup i ((k, c) :: r) = if k = i then some c else hintLookup i r from rfl,
          if_neg hk]
      rw [hL]
      cases hlook : hintLookup i r with
      | some c2 => rfl
      | none =>
        rw [get?_set_ne buf k i (some c) hk]

/-- C5.  After an accepted submission: when the hinted board has just been
solved the hint state is cleared entirely and the buffer reset to all-empty;
otherwise the hint state survives and the next buffer is all-empty except that
each slot recorded in `revealedHints` carries its revealed letter again. -/
theorem hint_persistence_after_submit (s : GameState) (tp : Int)
    (hacc : (submitGuess s).2 = SubmitResult.accepted tp)
    (hkeys : (s.revealedHints.map Prod.fst).Nodup) :
    (hintedNowSolved s = true ↔
        ∃ h, s.hintedSolutionIndex = some h ∧ (submitSolve s).1.getD h false = true)
      ∧ (hintedNowSolved s = true →
          (submitGuess s).1.revealedHints = []
            ∧ (submitGuess s).1.hintedSolutionIndex = none
            ∧ (submitGuess s).1.currentGuess = List.replicate WORD_LENGTH none)
      ∧ (hintedNowSolved s = false →
          (submitGuess s).1.revealedHints = s.revealedHints
            ∧ (submitGuess s).1.hintedSolutionIndex = s.hintedSolutionIndex
            ∧ ∀ i, i < WORD_LENGTH →
                (submitGuess s).1.currentGuess.get? i
                  = some (hintLookup i s.revealedHints)) := by
  have hstate := submit_state_of_accepted s tp hacc
  refine ⟨?_, ?_, ?_⟩
  · unfold hintedNowSolved
    cases hh : s.hintedSolutionIndex with
    | none =>
      simp
    | some h0 =>
      constructor
      · intro hg
        exact ⟨h0, rfl, hg⟩
      · rintro ⟨h1, hh1, hg⟩
        rw [Option.some.inj hh1]
        exact hg
  · intro hcond
    rw [hstate]
    refine ⟨?_, ?_, ?_⟩
    · show (if hintedNowSolved s then [] else s.revealedHints) = []
      rw [hcond, if_pos rfl]
    · show (if hintedNowSolved s then none else s.hintedSolutionIndex) = none
      rw [hcond, if_pos rfl]
    · show (if hintedNowSolved s then List.replicate WORD_LENGTH none
          else rebuildFromHints s.revealedHints) = List.replicate WORD_LENGTH (none : Option Char)
      rw [hcond, if_pos rfl]
  · intro hcond
    rw [hstate]
    refine ⟨?_, ?_, ?_⟩
    · show (if hintedNowSolved s then [] else s.revealedHints) = s.revealedHints
      rw [hcond]
      rfl
    · show (if hintedNowSolved s then none else s.hintedSolutionIndex) = s.hintedSolutionIndex
      rw [hcond]
      rfl
    · intro i hi
      show (if hintedNowSolved s then List.replicate WORD_LENGTH none
          else rebuildFromHints s.revealedHints).get? i = some (hintLookup i s.revealedHints)
      rw [hcond]
      rw [show (if false = true then List.replicate WORD_LENGTH (none : Option Char)
          else rebuildFromHints s.revealedHints) = rebuildFromHints s.revealedHints from rfl]
      unfold rebuildFromHints
      rw [rebuild_fold_get? s.revealedHints (List.replicate WORD_LENGTH none) i hkeys
        (by simpa using hi)]
      cases hlook : hintLookup i s.revealedHints with
      | some c => rfl
      | none =>
        rw [get?_replicate_of_lt none WORD_LENGTH i hi]

/-- C5 witness: an incorrect submission on the hinted (still unsolved) board
keeps the hint at slot 1, and the rebuilt buffer is empty everywhere else. -/
theorem hint_persistence_after_submit_witness :
    (hintedNowSolved hintPersistWitnessState = true ↔
        ∃ h, hintPersistWitnessState.hintedSolutionIndex = some h
          ∧ (submitSolve hintPersistWitnessState).1.getD h false = true)
      ∧ (hintedNowSolved hintPersistWitnessState = true →
          (submitGuess hintPersistWitnessState).1.revealedHints = []
            ∧ (submitGuess hintPersistWitnessState).1.hintedSolutionIndex = none
            ∧ (submitGuess hintPersistWitnessState).1.currentGuess
                = List.replicate WORD_LENGTH none)
      ∧ (hintedNowSolved hintPersistWitnessState = false →
          (submitGuess hintPersistWitnessState).1.revealedHints
              = hintPersistWitnessState.revealedHints
            ∧ (submitGuess hintPersistWitnessState).1.hintedSolutionIndex
                = hintPersistWitnessState.hintedSolutionIndex
            ∧ ∀ i, i < WORD_LENGTH →
                (submitGuess hintPersistWitnessState).1.currentGuess.get? i
                  = some (hintLookup i hintPersistWitnessState.revealedHints)) :=
  hint_persistence_after_submit hintPersistWitnessState 0 (by decide) (by decide)

/-! ### Hint request outcomes (C6, C7, C8) -/

theorem handleHint_notPlaying_eq (s : GameState) (r : Nat) (h : s.gameStatus ≠ .playing) :
    handleHint s r = (s, .notPlaying) := by
  unfold handleHint
  rw [if_pos h]

theorem handleHint_insufficient_eq (s : GameState) (r : Nat) (hp : s.gameStatus = .playing)
    (hs : s.score < s.hintCost) : handleHint s r = (s, .insufficientScore) := by
  unfold handleHint
  rw [if_neg (not_not_intro hp), if_pos hs]

theorem handleHint_noUnsolved_eq (s : GameState) (r : Nat) (hp : s.gameStatus = .playing)
    (hns : ¬(s.score < s.hintCost)) (hu : firstUnsolvedIndex s = none) :
    handleHint s r = (s, .noUnsolved) := by
  unfold handleHint
  rw [if_neg (not_not_intro hp), if_neg hns, hu]

theorem handleHint_noSlot_eq (s : GameState) (r : Nat) (u : Nat)
    (hp : s.gameStatus = .playing) (hns : ¬(s.score < s.hintCost))
    (hu : firstUnsolvedIndex s = some u) (hav : availableHintSlots s = []) :
    handleHint s r = (hintNoSlotState s u, .noSlot) := by
  unfold handleHint
  rw [if_neg (not_not_intro hp), if_neg hns, hu]
  show (if availableHintSlots s = [] then (hintNoSlotState s u, HintResult.noSlot)
      else (hintSuccessState s u r,
        HintResult.revealed (hintSlotPick s r) (hintLetter s u r))) = _
  rw [if_pos hav]

theorem handleHint_success_eq (s : GameState) (r : Nat) (u : Nat)
    (hp : s.gameStatus = .playing) (hns : ¬(s.score < s.hintCost))
    (hu : firstUnsolvedIndex s = some u) (hav : ¬(availableHintSlots s = [])) :
    handleHint s r
      = (hintSuccessState s u r, .revealed (hintSlotPick s r) (hintLetter s u r)) := by
  unfold handleHint
  rw [if_neg (not_not_intro hp), if_neg hns, hu]
  show (if availableHintSlots s = [] then (hintNoSlotState s u, HintResult.noSlot)
      else (hintSuccessState s u r,
        HintResult.revealed (hintSlotPick s r) (hintLetter s u r))) = _
  rw [if_neg hav]

theorem handleHint_result_cases (s : GameState) (r : Nat) :
    handleHint s r = (s, .notPlaying)
    ∨ handleHint s r = (s, .insufficientScore)
    ∨ handleHint s r = (s, .noUnsolved)
    ∨ (∃ u, firstUnsolvedIndex s = some u
        ∧ handleHint s r = (hintNoSlotState s u, .noSlot))
    ∨ (∃ u, firstUnsolvedIndex s = some u ∧ handleHint s r
        = (hintSuccessState s u r, .revealed (hintSlotPick s r) (hintLetter s u r))) := by
  by_cases hp : s.gameStatus = .playing
  · by_cases hsc : s.score < s.hintCost
    · exact Or.inr (Or.inl (handleHint_insufficient_eq s r hp hsc))
    · cases hfu : firstUnsolvedIndex s with
      | none => exact Or.inr (Or.inr (Or.inl (handleHint_noUnsolved_eq s r hp hsc hfu)))
      | some u =>
        by_cases hav : availableHintSlots s = []
        · exact Or.inr (Or.inr (Or.inr (Or.inl
            ⟨u, rfl, handleHint_noSlot_eq s r u hp hsc hfu hav⟩)))
        · exact Or.inr (Or.inr (Or.inr (Or.inr
            ⟨u, rfl, handleHint_success_eq s r u hp hsc hfu hav⟩)))
  · exact Or.inl (handleHint_notPlaying_eq s r hp)

/-- C6 counterexample: a hint request rejected for lack of an empty unrevealed
slot does NOT leave the state unchanged — the retarget writes
(`setHintedSolutionIndex`, `setRevealedHints({})`) were queued before the
rejection returned, so `hintedSolutionIndex` flips from `none` to `some 0`. -/
theorem rejected_hint_mutates_hint_state_cex :
    (handleHint noSlotCexState 0).2 = HintResult.noSlot
      ∧ ¬((handleHint noSlotCexState 0).1 = noSlotCexState) := by
  constructor
  · decide
  · decide

/-- C6 (amended).  Rejected submissions (incomplete or unknown word) and hints
rejected for insufficient score leave the state unchanged; a hint rejected
because no empty unrevealed slot exists leaves Guesses, GuessBuffer, Cursor,
SolvedMask, score, hintCost and GameStatus unchanged, but lands the retarget
writes on the hint state; when no retarget was needed it too changes
nothing. -/
theorem rejected_actions_amended :
    (∀ s : GameState, (submitGuess s).2 = SubmitResult.rejectedIncomplete →
        (submitGuess s).1 = s)
    ∧ (∀ s : GameState, (submitGuess s).2 = SubmitResult.rejectedUnknown →
        (submitGuess s).1 = s)
    ∧ (∀ (s : GameState) (r : Nat), (handleHint s r).2 = HintResult.insufficientScore →
        (handleHint s r).1 = s)
    ∧ (∀ (s : GameState) (r : Nat), (handleHint s r).2 = HintResult.noSlot →
        ∃ u, firstUnsolvedIndex s = some u
          ∧ (handleHint s r).1 = hintNoSlotState s u
          ∧ (handleHint s r).1.guesses = s.guesses
          ∧ (handleHint s r).1.currentGuess = s.currentGuess
          ∧ (handleHint s r).1.activeTileIndex = s.activeTileIndex
          ∧ (handleHint s r).1.solvedIndices = s.solvedIndices
          ∧ (handleHint s r).1.score = s.score
          ∧ (handleHint s r).1.hintCost = s.hintCost
          ∧ (handleHint s r).1.gameStatus = s.gameStatus
          ∧ (hintRetarget s u = false → (handleHint s r).1 = s)) := by
  refine ⟨?_, ?_, ?_, ?_⟩
  · intro s h
    exact submit_rejectedIncomplete_state s h
  · intro s h
    exact submit_rejectedUnknown_state s h
  · intro s r h
    rcases handleHint_result_cases s r with he | he | he | ⟨u, hu, he⟩ | ⟨u, hu, he⟩
    · rw [he] at h
      exact HintResult.noConfusion h
    · rw [he]
    · rw [he] at h
      exact HintResult.noConfusion h
    · rw [he] at h
      exact HintResult.noConfusion h
    · rw [he] at h
      exact HintResult.noConfusion h
  · intro s r h
    rcases handleHint_result_cases s r with he | he | he | ⟨u, hu, he⟩ | ⟨u, hu, he⟩
    · rw [he] at h
      exact HintResult.noConfusion h
    · rw [he] at h
      exact HintResult.noConfusion h
    · rw [he] at h
      exact HintResult.noConfusion h
    · have hstate : (handleHint s r).1 = hintNoSlotState s u := by rw [he]
      refine ⟨u, hu, hstate, ?_, ?_, ?_, ?_, ?_, ?_, ?_, ?_⟩
      · rw [hstate]
        rfl
      · rw [hstate]
        rfl
      · rw [hstate]
        rfl
      · rw [hstate]
        rfl
      · rw [hstate]
        rfl
      · rw [hstate]
        rfl
      · rw [hstate]
        rfl
      · intro hret
        rw [hstate]
        unfold hintNoSlotState
        rw [hret]
        rfl
    · rw [he] at h
      exact HintResult.noConfusion h

/-- C6 witness: submitting an all-empty buffer is rejected as incomplete and
changes nothing. -/
theorem rejected_actions_amended_witness :
    (submitGuess incompleteWitnessState).1 = incompleteWitnessState :=
  rejected_actions_amended.1 incompleteWitnessState (by decide)

/-- C7.  While playing with an unsolved board, a hint request is rejected
exactly when the score cannot cover the cost or no slot is available; a
successful hint deducts exactly `hintCost` and then raises `hintCost` by 5. -/
theorem hint_economy_correct (s : GameState) (r : Nat) (hp : s.gameStatus = .playing)
    (hu : firstUnsolvedIndex s ≠ none) :
    (((handleHint s r).2 = HintResult.insufficientScore
        ∨ (handleHint s r).2 = HintResult.noSlot)
      ↔ (s.score < s.hintCost ∨ availableHintSlots s = []))
    ∧ (∀ slot c, (handleHint s r).2 = HintResult.revealed slot c →
        (handleHint s r).1.score = s.score - s.hintCost
          ∧ (handleHint s r).1.hintCost = s.hintCost + 5) := by
  cases hfu : firstUnsolvedIndex s with
  | none => exact absurd hfu hu
  | some u =>
    by_cases hsc : s.score < s.hintCost
    · rw [handleHint_insufficient_eq s r hp hsc]
      constructor
      · constructor
        · intro _
          exact Or.inl hsc
        · intro _
          exact Or.inl rfl
      · intro slot c hcontra
        exact HintResult.noConfusion hcontra
    · by_cases hav : availableHintSlots s = []
      · rw [handleHint_noSlot_eq s r u hp hsc hfu hav]
        constructor
        · constructor
          · intro _
            exact Or.inr hav
          · intro _
            exact Or.inr rfl
        · intro slot c hcontra
          exact HintResult.noConfusion hcontra
      · rw [handleHint_success_eq s r u hp hsc hfu hav]
        constructor
        · constructor
          · intro hcontra
            rcases hcontra with hcx | hcx
            · exact HintResult.noConfusion hcx
            · exact HintResult.noConfusion hcx
          · intro hcontra
            rcases hcontra with hcx | hcx
            · exact absurd hcx hsc
            · exact absurd hcx hav
        · intro slot c _
          exact ⟨rfl, rfl⟩

/-- C7 witness: with `score = hintCost = 5` the first hint succeeds, leaves
`score = 0` and raises `hintCost` to 10. -/
theorem hint_economy_correct_witness :
    ((((handleHint hintEconomyWitnessState 0).2 = HintResult.insufficientScore
        ∨ (handleHint hintEconomyWitnessState 0).2 = HintResult.noSlot)
      ↔ (hintEconomyWitnessState.score < hintEconomyWitnessState.hintCost
          ∨ availableHintSlots hintEconomyWitnessState = []))
    ∧ (∀ slot c, (handleHint hintEconomyWitnessState 0).2 = HintResult.revealed slot c →
        (handleHint hintEconomyWitnessState 0).1.score
            = hintEconomyWitnessState.score - hintEconomyWitnessState.hintCost
          ∧ (handleHint hintEconomyWitnessState 0).1.hintCost
              = hintEconomyWitnessState.hintCost + 5)) :=
  hint_economy_correct hintEconomyWitnessState 0 (by decide) (by decide)

/-- C8.  The cursor-advance after a hint never happens: the `while` loop reads
the pre-reveal buffer, whose slot at the cursor is still empty, so the loop
exits immediately.  Here the hint reveals slot 0 (the cursor), the claim
requires the cursor to advance to slot 1 (the next empty slot after the
reveal), but the code leaves it at 0. -/
theorem hint_cursor_not_advanced :
    (handleHint cursorBugState 0).2 = HintResult.revealed 0 'T'
      ∧ (handleHint cursorBugState 0).1.activeTileIndex = 0
      ∧ (handleHint cursorBugState 0).1.currentGuess
          = [some 'T', none, none, none, none]
      ∧ advanceLoop cursorBugState.currentGuess WORD_LENGTH 0 = 0 := by
  refine ⟨?_, ?_, ?_, ?_⟩ <;> decide

/-! ### Keyboard aggregation (C9) -/

theorem updateKeyStatus_eq_statusMax :
    ∀ (cur : Option CharStatus) (n : CharStatus), updateKeyStatus cur n = statusMax cur n := by
  intro cur n
  cases cur with
  | none => cases n <;> rfl
  | some st => cases st <;> cases n <;> rfl

theorem getD_false_eq_decide (l : List Bool) (i : Nat) :
    l.getD i false = decide (l.get? i = some true) := by
  induction l generalizing i with
  | nil => cases i <;> rfl
  | cons x xs ih =>
    cases i with
    | zero => cases x <;> rfl
    | succ i => exact ih i

theorem foldl_skip_eq_filter {α β : Type _} (P : α → Prop) [DecidablePred P] (g : β → α → β) :
    ∀ (l : List α) (b : β),
      l.foldl (fun acc x => if P x then acc else g acc x) b
        = (l.filter fun x => !(decide (P x))).foldl g b := by
  intro l
  induction l with
  | nil =>
    intro b
    rfl
  | cons x l ih =>
    intro b
    by_cases hc : P x
    · simp [List.foldl_cons, List.filter_cons, hc, ih]
    · simp [List.foldl_cons, List.filter_cons, hc, ih]

theorem keyUpdate_some (statuses : List CharStatus) (m : Char → Option CharStatus)
    (k : Nat) (c : Char) (st : CharStatus) (h : statuses.get? k = some st) :
    keyUpdate statuses m (k, c) = fun x => if x = c then updateKeyStatus (m c) st else m x := by
  have he : keyUpdate statuses m (k, c)
      = match statuses.get? k with
        | some st => fun x => if x = c then updateKeyStatus (m c) st else m x
        | none => m := rfl
  rw [he, h]

theorem keyUpdate_none (statuses : List CharStatus) (m : Char → Option CharStatus)
    (k : Nat) (c : Char) (h : statuses.get? k = none) :
    keyUpdate statuses m (k, c) = m := by
  have he : keyUpdate statuses m (k, c)
      = match statuses.get? k with
        | some st => fun x => if x = c then updateKeyStatus (m c) st else m x
        | none => m := rfl
  rw [he, h]

theorem keyfold_zip (statuses : List CharStatus) (g : List Char) :
    ∀ (k : Nat) (m : Char → Option CharStatus),
      (List.enumFrom k g).foldl (keyUpdate statuses) m
        = (g.zip (statuses.drop k)).foldl
            (fun m q => fun c => if c = q.1 then statusMax (m q.1) q.2 else m c) m := by
  induction g with
  | nil =>
    intro k m
    rfl
  | cons c g ih =>
    intro k m
    show (List.enumFrom (k + 1) g).foldl (keyUpdate statuses) (keyUpdate statuses m (k, c)) = _
    cases hdrop : statuses.drop k with
    | nil =>
      have hget : statuses.get? k = none := by
        rw [get?_eq_head?_drop, hdrop]
        rfl
      have hdrop2 : statuses.drop (k + 1) = [] := by
        have h2 : List.drop 1 (List.drop k statuses) = List.drop (k + 1) statuses :=
          List.drop_drop 1 k statuses
        rw [hdrop] at h2
        exact h2.symm
      rw [keyUpdate_none statuses m k c hget, ih (k + 1) m, hdrop2]
      rw [List.zip_nil_right, List.zip_nil_right]
    | cons s0 stail =>
      have hget : statuses.get? k = some s0 := by
        rw [get?_eq_head?_drop, hdrop]
        rfl
      have hdrop2 : statuses.drop (k + 1) = stail := drop_succ_of_drop_cons statuses k s0 stail hdrop
      rw [keyUpdate_some statuses m k c s0 hget, ih (k + 1) _, hdrop2,
        updateKeyStatus_eq_statusMax]
      rfl

/-- C9.  The keyboard map of `getKeyStatuses` is exactly the spec fold: over
every guess and every currently-unsolved solution, each letter's Scorer status
is merged under the priority correct > present > absent (`specAggregate`), and
the merge never lowers a letter's rank, so solved boards contribute nothing
and no letter is ever downgraded. -/
theorem keyboard_aggregation_matches_spec :
    (∀ (guesses solutions : List (List Char)) (solved : List Bool),
        getKeyStatuses guesses solutions solved = specAggregate guesses solutions solved)
    ∧ (∀ (cur : Option CharStatus) (n : CharStatus), optRank cur ≤ optRank (statusMax cur n)) := by
  constructor
  · intro guesses solutions solved
    unfold getKeyStatuses specAggregate
    have hstep : (fun (m : Char → Option CharStatus) (guess : List Char) =>
          solutions.enum.foldl
            (fun m p =>
              if solved.get? p.1 = some true then m
              else guess.enum.foldl (keyUpdate (getGuessStatuses guess p.2)) m)
            m)
        = (fun (m : Char → Option CharStatus) (guess : List Char) =>
            (solutions.enum.filter fun p => !(solved.getD p.1 false)).foldl
              (fun m p =>
                (guess.zip (getGuessStatuses guess p.2)).foldl
                  (fun m q => fun c => if c = q.1 then statusMax (m q.1) q.2 else m c) m)
              m) := by
      funext m guess
      rw [foldl_skip_eq_filter (fun p => solved.get? p.1 = some true)
        (fun m p => guess.enum.foldl (keyUpdate (getGuessStatuses guess p.2)) m)
        solutions.enum m]
      rw [show (fun (x : Nat × List Char) => !(decide (solved.get? x.1 = some true)))
          = (fun (p : Nat × List Char) => !(solved.getD p.1 false)) from
        funext fun p => by rw [getD_false_eq_decide]]
      have hinner : (fun (m : Char → Option CharStatus) (p : Nat × List Char) =>
            guess.enum.foldl (keyUpdate (getGuessStatuses guess p.2)) m)
          = (fun (m : Char → Option CharStatus) (p : Nat × List Char) =>
              (guess.zip (getGuessStatuses guess p.2)).foldl
                (fun m q => fun c => if c = q.1 then statusMax (m q.1) q.2 else m c) m) := by
        funext m p
        have hmain := keyfold_zip (getGuessStatuses guess p.2) guess 0 m
        rw [List.drop_zero] at hmain
        exact hmain
      rw [hinner]
    rw [hstep]
  · intro cur n
    unfold statusMax
    by_cases h : optRank cur < statusRank n
    · rw [if_pos h]
      exact Nat.le_of_lt h
    · rw [if_neg h]

/-! ### Solution selection (C4) -/

theorem selectLoop_single_stuck :
    ∀ (fuel : Nat) (draws : Nat → Nat) (step : Nat) (acc : List (List Char)),
      (acc = [] ∨ acc = [demoWord]) →
      selectLoop [demoWord] 2 draws fuel step acc = none := by
  intro fuel
  induction fuel with
  | zero =>
    intro draws step acc hacc
    rcases hacc with rfl | rfl
    · rfl
    · rfl
  | succ fuel ih =>
    intro draws step acc hacc
    have hmod : draws step % ([demoWord] : List (List Char)).length = 0 := by
      simp [Nat.mod_one]
    have hdraw : ([demoWord] : List (List Char)).getD
        (draws step % ([demoWord] : List (List Char)).length) [] = demoWord := by
      rw [hmod]
      rfl
    rcases hacc with rfl | rfl
    · have he : selectLoop [demoWord] 2 draws (fuel + 1) step []
          = selectLoop [demoWord] 2 draws fuel (step + 1)
              (if ([] : List (List Char)).contains
                  (([demoWord] : List (List Char)).getD
                    (draws step % ([demoWord] : List (List Char)).length) []) then []
               else [] ++ [([demoWord] : List (List Char)).getD
                    (draws step % ([demoWord] : List (List Char)).length) []]) := by
        show (if ([] : List (List Char)).length < 2 then _ else some ([] : List (List Char))) = _
        rw [if_pos (by norm_num)]
      rw [he, hdraw]
      exact ih draws (step + 1) _ (Or.inr rfl)
    · have he : selectLoop [demoWord] 2 draws (fuel + 1) step [demoWord]
          = selectLoop [demoWord] 2 draws fuel (step + 1)
              (if ([demoWord] : List (List Char)).contains
                  (([demoWord] : List (List Char)).getD
                    (draws step % ([demoWord] : List (List Char)).length) []) then [demoWord]
               else [demoWord] ++ [([demoWord] : List (List Char)).getD
                    (draws step % ([demoWord] : List (List Char)).length) []]) := by
        show (if ([demoWord] : List (List Char)).length < 2 then _ else some [demoWord]) = _
        rw [if_pos (by norm_num)]
      rw [he, hdraw]
      exact ih draws (step + 1) _ (Or.inr rfl)

/-- C4.  The solution-selection loop of `initGame` has no pool-exhaustion
guard: with a vocabulary holding a single eligible word and `numWords = 2`,
every fuel bound and every draw stream leave the loop still running (`none`) —
the source simply never terminates, instead of failing with a
`PoolExhausted` condition as the spec requires. -/
theorem solution_selection_never_terminates_on_exhausted_pool :
    ∀ (draws : Nat → Nat) (fuel : Nat), initSolutions [demoWord] 2 draws fuel = none := by
  intro draws fuel
  have hfil : ([demoWord] : List (List Char)).filter eligible = [demoWord] := by decide
  unfold initSolutions
  rw [hfil]
  exact selectLoop_single_stuck fuel draws 0 [] (Or.inl rfl)

/-! ### Status transitions and the Won/Lost invariant (C3) -/

theorem submit_preserves_Inv (s : GameState) (h : Inv s) : Inv ((submitGuess s).1) := by
  by_cases h1 : (joinedGuess s).length ≠ WORD_LENGTH ∨ none ∈ s.currentGuess
  · have hs : (submitGuess s).1 = s := by
      unfold submitGuess
      rw [if_pos h1]
    rw [hs]
    exact h
  · by_cases h2 : joinedGuess s ∉ s.validGuessesSet
    · have hs : (submitGuess s).1 = s := by
        unfold submitGuess
        rw [if_neg h1, if_pos h2]
      rw [hs]
      exact h
    · have hres : (submitGuess s).2 = SubmitResult.accepted (submitSolve s).2 := by
        unfold submitGuess
        rw [if_neg h1, if_neg h2]
      have hstate := submit_state_of_accepted s (submitSolve s).2 hres
      rw [hstate]
      refine ⟨?_, ?_⟩
      · show ((if (submitSolve s).1.all (fun b => b) then GameStatus.won
            else if s.guesses.length + 1 ≥ 6 + s.level then GameStatus.lost
            else GameStatus.playing) = GameStatus.won)
            ↔ (submitSolve s).1.all (fun b => b) = true
        cases hall : (submitSolve s).1.all fun b => b with
        | true => simp
        | false =>
          rw [if_neg (by simp)]
          by_cases hlen : s.guesses.length + 1 ≥ 6 + s.level
          · rw [if_pos hlen]
            simp
          · rw [if_neg hlen]
            simp
      · intro hlost
        show (submitSolve s).1.all (fun b => b) = false
            ∧ (s.guesses ++ [joinedGuess s]).length ≥ 6 + s.level
        have hlost2 : (if (submitSolve s).1.all (fun b => b) then GameStatus.won
            else if s.guesses.length + 1 ≥ 6 + s.level then GameStatus.lost
            else GameStatus.playing) = GameStatus.lost := hlost
        cases hall : (submitSolve s).1.all fun b => b with
        | true =>
          rw [hall] at hlost2
          simp at hlost2
        | false =>
          rw [hall, if_neg (by simp)] at hlost2
          by_cases hlen : s.guesses.length + 1 ≥ 6 + s.level
          · refine ⟨rfl, ?_⟩
            simpa using hlen
          · rw [if_neg hlen] at hlost2
            simp at hlost2

theorem hint_preserves_Inv (s : GameState) (r : Nat) (h : Inv s) :
    Inv ((handleHint s r).1) := by
  rcases handleHint_result_cases s r with he | he | he | ⟨u, hu, he⟩ | ⟨u, hu, he⟩ <;> rw [he]
  · exact h
  · exact h
  · exact h
  · exact h
  · exact h

theorem key_preserves_Inv (s : GameState) (k : Key) (h : Inv s) : Inv (onKeyDown s k) := by
  unfold onKeyDown
  by_cases hp : s.gameStatus ≠ .playing
  · rw [if_pos hp]
    exact h
  · rw [if_neg hp]
    cases k with
    | backspace =>
      dsimp only
      split <;> exact h
    | arrowLeft => exact h
    | arrowRight => exact h
    | enter => exact submit_preserves_Inv s h
    | letter c =>
      dsimp only
      split <;> exact h

theorem applyInit_Inv (s : GameState) (lvl : Nat) (sols : List (List Char)) (b : Bool) :
    Inv (applyInit s lvl sols b) := by
  have hall : (List.replicate (lvl + 1) false).all (fun x => x) = false := by
    simp [List.replicate_succ]
  refine ⟨⟨fun hcontra => GameStatus.noConfusion hcontra, fun hcontra => ?_⟩,
    fun hcontra => GameStatus.noConfusion hcontra⟩
  have hcontra2 : (List.replicate (lvl + 1) false).all (fun x => x) = true := hcontra
  rw [hall] at hcontra2
  exact Bool.noConfusion hcontra2

theorem initialState_Inv (sols vg : List (List Char)) : Inv (initialState sols vg) := by
  refine ⟨⟨fun hcontra => GameStatus.noConfusion hcontra, fun hcontra => ?_⟩,
    fun hcontra => GameStatus.noConfusion hcontra⟩
  have hcontra2 : (List.replicate 1 false).all (fun x => x) = true := hcontra
  exact Bool.noConfusion hcontra2

theorem step_preserves_Inv {s t : GameState} (h : Inv s) (hst : Step s t) : Inv t := by
  cases hst with
  | key k => exact key_preserves_Inv s k h
  | tileClick i hpl => exact h
  | hint r => exact hint_preserves_Inv s r h
  | dictMerge ws => exact h
  | advanceLevel vocab draws fuel sols hw hsel => exact applyInit_Inv s (s.level + 1) sols false
  | restartLevel vocab draws fuel sols hl hsel => exact applyInit_Inv s s.level sols false
  | resetToZero vocab draws fuel sols hl hnz hsel => exact applyInit_Inv s 0 sols true

theorem reachable_Inv (s : GameState) (h : Reachable s) : Inv s := by
  induction h with
  | init vocab draws fuel sols vg hsel => exact initialState_Inv sols vg
  | step hr hst ih => exact step_preserves_Inv ih hst

/-- C3.  After every accepted submission the new status is Won when every mask
entry is true, else Lost when the guess count reached `maxChallenges`, else
Playing; and in every reachable state, the status is Won exactly when every
mask entry is true, and Lost only with an unsolved board and
`len(Guesses) ≥ maxChallenges`. -/
theorem status_transition_and_invariant :
    (∀ (s : GameState) (tp : Int), (submitGuess s).2 = SubmitResult.accepted tp →
        (submitGuess s).1.gameStatus
          = (if (submitGuess s).1.solvedIndices.all (fun b => b) then GameStatus.won
             else if (submitGuess s).1.guesses.length ≥ 6 + s.level then GameStatus.lost
             else GameStatus.playing))
    ∧ (∀ s : GameState, Reachable s →
        ((s.gameStatus = GameStatus.won ↔ s.solvedIndices.all (fun b => b) = true)
          ∧ (s.gameStatus = GameStatus.lost →
              s.solvedIndices.all (fun b => b) = false
                ∧ s.guesses.length ≥ 6 + s.level))) := by
  constructor
  · intro s tp hacc
    have hstate := submit_state_of_accepted s tp hacc
    rw [hstate]
    show (if (submitSolve s).1.all (fun b => b) then GameStatus.won
        else if s.guesses.length + 1 ≥ 6 + s.level then GameStatus.lost
        else GameStatus.playing)
      = (if (submitSolve s).1.all (fun b => b) then GameStatus.won
        else if (s.guesses ++ [joinedGuess s]).length ≥ 6 + s.level then GameStatus.lost
        else GameStatus.playing)
    simp [List.length_append]
  · intro s hreach
    exact reachable_Inv s hreach

/-- C3 witness: a first-guess solve transitions the initial one-board session
to Won, and the freshly initialized state satisfies the invariant. -/
theorem status_transition_and_invariant_witness :
    ((submitGuess scoreWitnessState).1.gameStatus
        = (if (submitGuess scoreWitnessState).1.solvedIndices.all (fun b => b) then GameStatus.won
           else if (submitGuess scoreWitnessState).1.guesses.length
               ≥ 6 + scoreWitnessState.level then GameStatus.lost
           else GameStatus.playing))
      ∧ (((initialState [demoWord] []).gameStatus = GameStatus.won
            ↔ (initialState [demoWord] []).solvedIndices.all (fun b => b) = true)
          ∧ ((initialState [demoWord] []).gameStatus = GameStatus.lost →
              (initialState [demoWord] []).solvedIndices.all (fun b => b) = false
                ∧ (initialState [demoWord] []).guesses.length
                    ≥ 6 + (initialState [demoWord] []).level)) :=
  ⟨status_transition_and_invariant.1 scoreWitnessState 100 (by decide),
   status_transition_and_invariant.2 (initialState [demoWord] [])
     (Reachable.init [demoWord] (fun _ => 0) 1 [demoWord] [] (by decide))⟩

end Termo
